import Mathlib

/-!
Verification of the smodslib dependency resolver, extraction layer, download
resolver and catalogue search against their natural-language specification.

The definitions below are shallow embeddings of the Python source:

* `smodslib/model.py`   : ModRevision, ModBase, ModDependency, FullMod setter,
                          SortByFilter, TimePeriodFilter
* `smodslib/smods.py`   : _is_mod_in_list, create_mod_dependencies_tree,
                          get_mod_revisions date handling
* `smodslib/batch.py`   : generate_dependency_tree
* `smodslib/utils.py`   : parse_time
* `smodslib/download.py`: generate_download_url, download_revision
* `smodslib/catalogues.py`: search URL construction

External effects (HTTP fetches, the strptime C routine, the file system) are
passed in as explicit function parameters; machine-level details (MD5) are
implemented concretely over Nat with explicit reduction modulo 2 ^ 32.
-/

/-! ## Data model (smodslib/model.py) -/

/-- A Python datetime, restricted to the fields the library reads or writes
(year, month, day, hour, minute).  Comparison is lexicographic, as in Python. -/
structure PyDateTime where
  year : Nat
  month : Nat
  day : Nat
  hour : Nat
  minute : Nat
deriving Repr, DecidableEq

/-- Lexicographic order on datetimes, mirroring Python datetime comparison. -/
def PyDateTime.leb (a b : PyDateTime) : Bool :=
  if a.year ≠ b.year then a.year < b.year
  else if a.month ≠ b.month then a.month < b.month
  else if a.day ≠ b.day then a.day < b.day
  else if a.hour ≠ b.hour then a.hour < b.hour
  else a.minute ≤ b.minute

/-- ModRevision (model.py lines 8-39): display name, parsed date, download URL. -/
structure ModRevision where
  name : String
  date : PyDateTime
  download_url : String
deriving Repr, DecidableEq

/-- ModBase (model.py lines 42-166), restricted to the fields the resolver and
the claims read: name, skymod id, steam id and the has_dependencies flag. -/
structure ModBase where
  name : String
  id : String
  steam_id : String
  has_dependencies : Bool
deriving Repr, DecidableEq

/-- ModDependency (model.py lines 168-197): a ModBase together with the list of
mods that require it.  ModDependency.from_mod copies the base fields and
initialises required_by to the empty list. -/
structure ModDependency where
  base : ModBase
  required_by : List ModBase
deriving Repr, DecidableEq

/-! ## The dependency resolver (smodslib/smods.py) -/

/-- The loop body of _is_mod_in_list (smods.py lines 33-44), expressed over the
projected id list: returns the index of the first element equal to the probed
id, or -1 when there is none, exactly as the Python enumerate loop does. -/
def isModInListIds (mid : String) : List String → Int
  | [] => -1
  | x :: rest =>
    if x = mid then 0
    else
      let r := isModInListIds mid rest
      if r < 0 then -1 else r + 1

/-- _is_mod_in_list applied to a list of ModBase (used on required_by lists). -/
def isModInListBase (mod : ModBase) (mods_list : List ModBase) : Int :=
  isModInListIds mod.id (mods_list.map (fun item => item.id))

/-- _is_mod_in_list applied to a list of ModDependency (used on the
accumulator; item.id of a ModDependency is its base id). -/
def isModInListDep (mod : ModBase) (mods_list : List ModDependency) : Int :=
  isModInListIds mod.id (mods_list.map (fun item => item.base.id))

/-- One iteration of the accumulator-update loop of create_mod_dependencies_tree
(smods.py lines 441-450): look up the requirement in the accumulator by id; if
found, append the root to that entry when the root is not already present
(by id); otherwise append a fresh ModDependency whose required_by is [root]. -/
def processRequirement (root : ModBase) (dependencies_list : List ModDependency)
    (mod : ModBase) : List ModDependency :=
  let search_index := isModInListDep mod dependencies_list
  if search_index ≥ 0 then
    match dependencies_list[search_index.toNat]? with
    | some entry =>
      if isModInListBase root entry.required_by < 0 then
        dependencies_list.set search_index.toNat
          { entry with required_by := entry.required_by ++ [root] }
      else
        dependencies_list
    | none => dependencies_list
  else
    dependencies_list ++ [{ base := mod, required_by := [root] }]

/-- Recursive restatement of processRequirement: update the first entry whose
id matches, otherwise append a fresh entry at the end.  Proved equal to
processRequirement below (processRequirement_eq_insertDependency). -/
def insertDependency (root mod : ModBase) : List ModDependency → List ModDependency
  | [] => [{ base := mod, required_by := [root] }]
  | entry :: rest =>
    if entry.base.id = mod.id then
      (if isModInListBase root entry.required_by < 0 then
        { entry with required_by := entry.required_by ++ [root] }
      else entry) :: rest
    else
      entry :: insertDependency root mod rest

/-- The part of a mod html page that create_mod_dependencies_tree reads: the
root mod extracted by create_mod_base_from_bs_page, and the steam ids of the
smods.ru anchors inside the "Required items:" box (none when the page has no
such box). -/
structure ModPage where
  root : ModBase
  requiredItems : Option (List String)
deriving Repr, DecidableEq

/-- The requirement-scraping loop of create_mod_dependencies_tree (smods.py
lines 426-438): each anchor steam id is resolved through
create_mod_base_from_steam_id, modelled by lookup; a NoResultError (lookup
returning none) drops the requirement silently. -/
def scrapeRequirements (lookup : String → Option ModBase)
    (requiredItems : Option (List String)) : List ModBase :=
  match requiredItems with
  | none => []
  | some steamIds => steamIds.filterMap lookup

/-- create_mod_dependencies_tree (smods.py lines 412-456) with recursive=False,
its default: scrape the requirements, then run the accumulator-update loop
over them. -/
def create_mod_dependencies_tree (lookup : String → Option ModBase)
    (page : ModPage) (dependencies_list : List ModDependency) : List ModDependency :=
  (scrapeRequirements lookup page.requiredItems).foldl
    (fun acc mod => processRequirement page.root acc mod) dependencies_list

/-- generate_dependency_tree (batch.py lines 7-26): resolve each root id in
turn against one shared accumulator, starting from the empty list. -/
def generate_dependency_tree (site : String → ModPage)
    (lookup : String → Option ModBase) (mods_ids : List String) : List ModDependency :=
  mods_ids.foldl
    (fun acc mod_id => create_mod_dependencies_tree lookup (site mod_id) acc) []

/-- The per-requirement loop of create_mod_dependencies_tree with
recursive=True: update the accumulator for the requirement, then re-enter the
whole procedure on the requirement id (smods.py lines 441-454).  The recursive
re-entry is the recurse parameter; none propagates. -/
def cmdtRecAux (recurse : String → List ModDependency → Option (List ModDependency))
    (root : ModBase) : List ModBase → List ModDependency → Option (List ModDependency)
  | [], acc => some acc
  | mod :: rest, acc =>
    match recurse mod.id (processRequirement root acc mod) with
    | none => none
    | some acc2 => cmdtRecAux recurse root rest acc2

/-- create_mod_dependencies_tree with recursive=True, instrumented with a fuel
bound on the recursion depth.  The source re-descends with no depth bound and
no visited-set guard; a run of the source that would recurse deeper than fuel
is modelled by the result none.  The source terminates on an input exactly when
this function returns some for every sufficiently large fuel. -/
def cmdtRec (site : String → ModPage) (lookup : String → Option ModBase) :
    Nat → String → List ModDependency → Option (List ModDependency)
  | 0, _, _ => none
  | fuel + 1, sky_id, acc =>
    let page := site sky_id
    cmdtRecAux (cmdtRec site lookup fuel) page.root
      (scrapeRequirements lookup page.requiredItems) acc

/-! ## Derived quantities used by the dedup statements -/

/-- Ids of the accumulator entries, in order. -/
def depIds (l : List ModDependency) : List String := l.map (fun d => d.base.id)

/-- Ids of the mods in a required_by list, in order. -/
def reqIds (d : ModDependency) : List String := d.required_by.map (fun m => m.id)

/-! ## MD5 (hashlib.md5, used by ModRevision.hash at model.py lines 9-15),
implemented over Nat with explicit reduction modulo 2 ^ 32 -/

/-- Addition modulo 2 ^ 32. -/
def add32 (a b : Nat) : Nat := (a + b) % 4294967296

/-- Bitwise complement on 32-bit words. -/
def not32 (x : Nat) : Nat := x ^^^ 4294967295

/-- Left rotation on 32-bit words. -/
def rotl32 (x s : Nat) : Nat := ((x <<< s) % 4294967296) ||| (x >>> (32 - s))

/-- The 64 MD5 sine-derived round constants. -/
def md5K : List Nat := [
  0xd76aa478, 0xe8c7b756, 0x242070db, 0xc1bdceee,
  0xf57c0faf, 0x4787c62a, 0xa8304613, 0xfd469501,
  0x698098d8, 0x8b44f7af, 0xffff5bb1, 0x895cd7be,
  0x6b901122, 0xfd987193, 0xa679438e, 0x49b40821,
  0xf61e2562, 0xc040b340, 0x265e5a51, 0xe9b6c7aa,
  0xd62f105d, 0x02441453, 0xd8a1e681, 0xe7d3fbc8,
  0x21e1cde6, 0xc33707d6, 0xf4d50d87, 0x455a14ed,
  0xa9e3e905, 0xfcefa3f8, 0x676f02d9, 0x8d2a4c8a,
  0xfffa3942, 0x8771f681, 0x6d9d6122, 0xfde5380c,
  0xa4beea44, 0x4bdecfa9, 0xf6bb4b60, 0xbebfbc70,
  0x289b7ec6, 0xeaa127fa, 0xd4ef3085, 0x04881d05,
  0xd9d4d039, 0xe6db99e5, 0x1fa27cf8, 0xc4ac5665,
  0xf4292244, 0x432aff97, 0xab9423a7, 0xfc93a039,
  0x655b59c3, 0x8f0ccc92, 0xffeff47d, 0x85845dd1,
  0x6fa87e4f, 0xfe2ce6e0, 0xa3014314, 0x4e0811a1,
  0xf7537e82, 0xbd3af235, 0x2ad7d2bb, 0xeb86d391]

/-- The MD5 per-round left-rotation amounts. -/
def md5S : List Nat := [
  7, 12, 17, 22, 7, 12, 17, 22, 7, 12, 17, 22, 7, 12, 17, 22,
  5, 9, 14, 20, 5, 9, 14, 20, 5, 9, 14, 20, 5, 9, 14, 20,
  4, 11, 16, 23, 4, 11, 16, 23, 4, 11, 16, 23, 4, 11, 16, 23,
  6, 10, 15, 21, 6, 10, 15, 21, 6, 10, 15, 21, 6, 10, 15, 21]

/-- Little-endian byte decomposition of a number into k bytes. -/
def natLEBytes : Nat → Nat → List Nat
  | 0, _ => []
  | k + 1, n => (n % 256) :: natLEBytes k (n / 256)

/-- MD5 padding: the 0x80 marker, zero bytes up to 56 modulo 64, then the
original length in bits as eight little-endian bytes. -/
def md5Pad (msg : List Nat) : List Nat :=
  msg ++ [0x80] ++ List.replicate ((119 - msg.length % 64) % 64) 0 ++
    natLEBytes 8 ((msg.length * 8) % 18446744073709551616)

/-- Split a padded byte list into its 64-byte chunks. -/
def chunksOf64 (padded : List Nat) : List (List Nat) :=
  (List.range (padded.length / 64)).map (fun i => (padded.drop (64 * i)).take 64)

/-- The little-endian 32-bit word of a chunk at word index g. -/
def md5Word (chunk : List Nat) (g : Nat) : Nat :=
  chunk.getD (4 * g) 0 + 256 * chunk.getD (4 * g + 1) 0 +
    65536 * chunk.getD (4 * g + 2) 0 + 16777216 * chunk.getD (4 * g + 3) 0

/-- One MD5 operation (step i of the 64 per chunk). -/
def md5Round (chunk : List Nat) (st : Nat × Nat × Nat × Nat) (i : Nat) :
    Nat × Nat × Nat × Nat :=
  let (a, b, c, d) := st
  let fg : Nat × Nat :=
    if i < 16 then ((b &&& c) ||| (not32 b &&& d), i)
    else if i < 32 then ((d &&& b) ||| (not32 d &&& c), (5 * i + 1) % 16)
    else if i < 48 then (b ^^^ c ^^^ d, (3 * i + 5) % 16)
    else (c ^^^ (b ||| not32 d), (7 * i) % 16)
  let f := (fg.1 + a + md5K.getD i 0 + md5Word chunk fg.2) % 4294967296
  (d, add32 b (rotl32 f (md5S.getD i 0)), b, c)

/-- Process one 64-byte chunk, updating the four-word state. -/
def md5Chunk (st : Nat × Nat × Nat × Nat) (chunk : List Nat) :
    Nat × Nat × Nat × Nat :=
  let r := (List.range 64).foldl (md5Round chunk) st
  (add32 st.1 r.1, add32 st.2.1 r.2.1, add32 st.2.2.1 r.2.2.1, add32 st.2.2.2 r.2.2.2)

/-- The 16 MD5 digest bytes of a byte string. -/
def md5Bytes (msg : List Nat) : List Nat :=
  let r := (chunksOf64 (md5Pad msg)).foldl md5Chunk
    (0x67452301, 0xefcdab89, 0x98badcfe, 0x10325476)
  natLEBytes 4 r.1 ++ natLEBytes 4 r.2.1 ++ natLEBytes 4 r.2.2.1 ++ natLEBytes 4 r.2.2.2

/-- A lowercase hexadecimal digit character. -/
def hexDigit (n : Nat) : Char :=
  if n < 10 then Char.ofNat (48 + n) else Char.ofNat (87 + n)

/-- The two lowercase hexadecimal digit characters of a byte. -/
def byteHex (b : Nat) : List Char := [hexDigit (b / 16), hexDigit (b % 16)]

/-- The characters of the lowercase hexadecimal MD5 digest. -/
def md5HexChars (msg : List Nat) : List Char := ((md5Bytes msg).map byteHex).flatten

/-- hashlib.md5(bytes).hexdigest(). -/
def md5Hexdigest (msg : List Nat) : String := String.mk (md5HexChars msg)

/-- The UTF-8 encoding of one character. -/
def utf8EncodeChar (c : Char) : List Nat :=
  let n := c.toNat
  if n < 128 then [n]
  else if n < 2048 then [192 + n / 64, 128 + n % 64]
  else if n < 65536 then [224 + n / 4096, 128 + (n / 64) % 64, 128 + n % 64]
  else [240 + n / 262144, 128 + (n / 4096) % 64, 128 + (n / 64) % 64, 128 + n % 64]

/-- Python str.encode with utf-8. -/
def utf8Encode (s : String) : List Nat := (s.data.map utf8EncodeChar).flatten

/-- ModRevision.hash (model.py lines 9-11): the first ten characters of the
hexadecimal MD5 digest of the UTF-8 encoded string. -/
def ModRevision.hash (string : String) : String :=
  String.mk ((md5HexChars (utf8Encode string)).take 10)

/-- ModRevision.id (model.py lines 13-15): the hash of the display name. -/
def ModRevision.id (r : ModRevision) : String := ModRevision.hash r.name

/-! ## Python string helpers (model.py filename, download.py path handling) -/

/-- Python str.split with a one-character separator: split at every occurrence
of the separator and keep empty parts.  The result is always nonempty. -/
def splitChar (sep : Char) : List Char → List (List Char)
  | [] => [[]]
  | c :: rest =>
    match splitChar sep rest with
    | [] => [[]]
    | s :: ss => if c = sep then [] :: s :: ss else (c :: s) :: ss

/-- Python replace of the five-character pattern dot h t m l by the empty
string: scan left to right and skip each occurrence. -/
def removeHtmlOccurrences : List Char → List Char
  | '.' :: 'h' :: 't' :: 'm' :: 'l' :: rest => removeHtmlOccurrences rest
  | c :: rest => c :: removeHtmlOccurrences rest
  | [] => []

/-- The whitespace characters removed by Python str.strip. -/
def isPyWhitespace (c : Char) : Bool :=
  c = ' ' || c = '\t' || c = '\n' || c = '\r' || c = '\x0b' || c = '\x0c'

/-- Python str.strip: drop whitespace from both ends. -/
def pyStrip (l : List Char) : List Char :=
  ((l.dropWhile isPyWhitespace).reverse.dropWhile isPyWhitespace).reverse

/-- ModRevision.filename (model.py lines 29-31): the expression
download_url.split("/")[-1].replace(".html", "").strip(). -/
def ModRevision.filename (r : ModRevision) : String :=
  String.mk (pyStrip (removeHtmlOccurrences
    ((splitChar '/' r.download_url.data).getLastD [])))

/-- The last path segment of a URL in the words of the specification: the
substring after the final slash (the whole string when there is no slash). -/
def lastPathSegment (url : String) : String :=
  String.mk ((url.data.reverse.takeWhile (fun c => c != '/')).reverse)

/-! ## The downloader (download.py lines 66-118) -/

/-- The response of the streaming GET in download_revision: either an HTTP
error status with its message, or the content-length header (when present)
together with the sizes of the streamed chunks. -/
inductive NetResponse where
  | httpError (status : Nat) (msg : String)
  | ok (contentLength : Option Nat) (chunks : List Nat)
deriving Repr, DecidableEq

/-- The observable outcome of download_revision: the returned path (none on a
reported HTTP error), the resulting file system, the progress and error
callback invocations in order, and the number of network requests performed. -/
structure DownloadResult where
  result : Option String
  fs : List (String × Nat)
  progressCalls : List (Nat × Nat)
  errorCalls : List (Nat × String)
  netRequests : Nat
deriving Repr, DecidableEq

/-- The successive progress-callback arguments of the streaming loop: after
each chunk, the bytes downloaded so far and the content-length total. -/
def progressList (total : Nat) (dl : Nat) : List Nat → List (Nat × Nat)
  | [] => []
  | c :: rest => (dl + c, total) :: progressList total (dl + c) rest

/-- download_revision (download.py lines 66-118).  The file system is an
association list from path to file size; abspath and pathJoin stand for the
os.path routines and net for the scraper GET.  The local filename is the last
segment of download_url split on the slash; when a file with that name exists
at the target, the call reports full progress once (existing size as both
arguments) and returns the existing absolute path without touching the
network; an HTTP error is handed to the error callback and none is returned
with no file written; otherwise the chunks are streamed into the target file,
with progress after each chunk when the content-length header is present. -/
def download_revision (net : String → NetResponse) (fs : List (String × Nat))
    (abspath : String → String) (pathJoin : String → String → String)
    (download_url download_path : String)
    (progress_callback error_callback : Bool) : DownloadResult :=
  let local_filename := String.mk ((splitChar '/' download_url.data).getLastD [])
  let download_target := pathJoin (abspath download_path) local_filename
  match fs.lookup download_target with
  | some size =>
    { result := some (abspath download_target), fs := fs,
      progressCalls := if progress_callback then [(size, size)] else [],
      errorCalls := [], netRequests := 0 }
  | none =>
    match net download_url with
    | .httpError status msg =>
      { result := none, fs := fs, progressCalls := [],
        errorCalls := if error_callback then [(status, msg)] else [],
        netRequests := 1 }
    | .ok contentLength chunks =>
      { result := some (abspath download_target),
        fs := (download_target, chunks.sum) :: fs,
        progressCalls :=
          match contentLength with
          | some total => if progress_callback then progressList total 0 chunks else []
          | none => [],
        errorCalls := [], netRequests := 1 }

/-! ## The download URL resolver (download.py lines 12-63) -/

/-- The fixed allow-list of supported hosts (download.py line 12). -/
def SUPPORTED_HOSTS : List String := ["modsbase.com", "uploadfiles.eu"]

/-- The part of a URL after the scheme separator, when present. -/
def afterSchemeSep : List Char → Option (List Char)
  | ':' :: '/' :: '/' :: rest => some rest
  | _ :: rest => afterSchemeSep rest
  | [] => none

/-- urlparse(url).hostname: the netloc up to the first slash, question mark or
number sign, with any userinfo and port removed, lowercased; none when the
URL has no netloc or the host part is empty. -/
def urlHostname (url : String) : Option String :=
  match afterSchemeSep url.data with
  | none => none
  | some rest =>
    let netloc := rest.takeWhile (fun c => c != '/' && c != '?' && c != '#')
    let afterUser := (netloc.reverse.takeWhile (fun c => c != '@')).reverse
    let host := (afterUser.takeWhile (fun c => c != ':')).map Char.toLower
    if host = [] then none else some (String.mk host)

/-- The membership test of the hostname in SUPPORTED_HOSTS; a missing
hostname (Python None) is never a member. -/
def hostSupported (h : Option String) : Bool :=
  match h with
  | some hn => SUPPORTED_HOSTS.contains hn
  | none => false

/-- A network request performed by generate_download_url. -/
inductive NetEvent where
  | get (url : String)
  | post (url : String)
deriving Repr, DecidableEq

/-- The failures of generate_download_url: the UnsupportedHostError raise and
a propagated raise_for_status HTTP error. -/
inductive DownloadUrlError where
  | unsupportedHost (msg : String)
  | httpError (status : Nat)
deriving Repr, DecidableEq

/-- The fixed free-download unlock form fields (download.py lines 46-53). -/
def DOWNLOAD_FORM_DATA (download_id : String) : List (String × String) :=
  [("op", "download2"), ("id", download_id), ("rand", ""),
    ("referer", "https://smods.ru/"), ("method_free", "Free Download"),
    ("method_premium", "")]

/-- generate_download_url (download.py lines 20-63): check the hostname of
the revision download URL against the allow-list and raise
UnsupportedHostError otherwise; for the uploadfiles.eu host first follow one
redirect via a GET without redirects (getRedirect: Location header or error
status); extract the download id as the next-to-last slash segment; submit
the unlock POST (postUnlock) and return its Location header.  The second
component collects the network requests performed, in order. -/
def generate_download_url (getRedirect : String → Except Nat String)
    (postUnlock : String → List (String × String) → Except Nat String)
    (revision : ModRevision) : Except DownloadUrlError String × List NetEvent :=
  let mod_url := revision.download_url
  let hostname := urlHostname mod_url
  if hostSupported hostname = false then
    (.error (.unsupportedHost ((match hostname with
      | some hn => hn
      | none => "None") ++ " in not a supported hosting services")), [])
  else
    let step1 : Except Nat String × List NetEvent :=
      if hostname = some "uploadfiles.eu" then
        (getRedirect mod_url, [.get mod_url])
      else
        (.ok mod_url, [])
    match step1 with
    | (.error status, evs) => (.error (.httpError status), evs)
    | (.ok mod_url2, evs) =>
      let download_id := String.mk ((splitChar '/' mod_url2.data).reverse.getD 1 [])
      match postUnlock mod_url2 (DOWNLOAD_FORM_DATA download_id) with
      | .error status => (.error (.httpError status), evs ++ [.post mod_url2])
      | .ok download_url => (.ok download_url, evs ++ [.post mod_url2])

/-! ## Catalogue search (catalogues.py lines 10-40, model.py lines 313-359) -/

/-- SortByFilter (model.py lines 313-329). -/
inductive SortByFilter where
  | UPLOADED
  | UPDATED
  | HIGHEST_RATED
  | UNRATED
  | SMALLEST_FILE_SIZE
  | LARGEST_FILE_SIZE
deriving Repr, DecidableEq

/-- The wire value of each SortByFilter member (model.py lines 324-329). -/
def SortByFilter.value : SortByFilter → String
  | .UPLOADED => ""
  | .UPDATED => "updated"
  | .HIGHEST_RATED => "highest-rated"
  | .UNRATED => "unrated"
  | .SMALLEST_FILE_SIZE => "smallest-file-size"
  | .LARGEST_FILE_SIZE => "largest-file-size"

/-- TimePeriodFilter (model.py lines 332-351). -/
inductive TimePeriodFilter where
  | ALL_TIME
  | ONE_DAY
  | THREE_DAYS
  | ONE_WEEK
  | TWO_WEEKS
  | ONE_MONTH
  | SIX_MONTHS
  | ONE_YEAR
deriving Repr, DecidableEq

/-- The wire value of each TimePeriodFilter member (model.py lines 344-351). -/
def TimePeriodFilter.value : TimePeriodFilter → String
  | .ALL_TIME => ""
  | .ONE_DAY => "one_day"
  | .THREE_DAYS => "three_days"
  | .ONE_WEEK => "one_week"
  | .TWO_WEEKS => "two_weeks"
  | .ONE_MONTH => "one_month"
  | .SIX_MONTHS => "six_months"
  | .ONE_YEAR => "one_year"

/-- CatalogueParameters (model.py lines 354-359): the optional sort and
period filters. -/
structure CatalogueParameters where
  sort : Option SortByFilter := none
  period : Option TimePeriodFilter := none
deriving Repr, DecidableEq

/-- The items of the filters dict, each present key paired with the wire
value of its enum member. -/
def CatalogueParameters.items (f : CatalogueParameters) : List (String × String) :=
  (match f.sort with
    | some s => [("sort", s.value)]
    | none => []) ++
  (match f.period with
    | some p => [("period", p.value)]
    | none => [])

/-- The query parameters built by search (catalogues.py lines 23-30): the
keyword under the key s, then each present filter whose member is truthy; a
member of a str-backed enum is truthy exactly when its wire value is a
nonempty string. -/
def searchParameters (query : String) (filters : Option CatalogueParameters) :
    List (String × String) :=
  [("s", query)] ++
    match filters with
    | none => []
    | some f => f.items.filter (fun kv => kv.2 != "")

/-- The search endpoint URL (catalogues.py lines 32-35): urlunsplit of the
https scheme, the smods.ru host, the pagination path and the urlencoded
query string; urlencode is the urllib routine, passed in as a parameter. -/
def search_endpoint (urlencode : List (String × String) → String)
    (query : String) (page : Nat) (filters : Option CatalogueParameters) : String :=
  let url_path := if page = 0 then "/" else "/page/" ++ toString page
  let url_query := urlencode (searchParameters query filters)
  "https://smods.ru" ++ url_path ++
    (if url_query = "" then "" else "?" ++ url_query)

/-! ## The FullMod.other_revisions setter (model.py lines 260-265) -/

/-- Insert a revision into a date-sorted list, keeping ascending order. -/
def insertByDate (r : ModRevision) : List ModRevision → List ModRevision
  | [] => [r]
  | x :: rest =>
    if PyDateTime.leb r.date x.date then r :: x :: rest else x :: insertByDate r rest

/-- Stable ascending sort by revision date: the computation performed by the
sorted(value, key=lambda item: item.date) call in the setter. -/
def sortedByDate (l : List ModRevision) : List ModRevision := l.foldr insertByDate []

/-- The other_revisions setter (model.py lines 260-265): when the value is
truthy the source computes sorted(value, key=lambda item: item.date) but
discards the returned list, then stores the incoming value unchanged. -/
def set_other_revisions (value : Option (List ModRevision)) : Option (List ModRevision) :=
  match value with
  | some l =>
    let _discarded := sortedByDate l
    some l
  | none => none

/-- Decide whether a revision list is non-decreasing by date. -/
def revisionsSortedByDate : List ModRevision → Bool
  | [] => true
  | [_] => true
  | a :: b :: rest => PyDateTime.leb a.date b.date && revisionsSortedByDate (b :: rest)

/-- A concrete revision dated May 2023. -/
def revLateW : ModRevision :=
  { name := "1 May, 2023 at 12:00"
    date := { year := 2023, month := 5, day := 1, hour := 12, minute := 0 }
    download_url := "https://modsbase.com/aaaa/Mod_v2.zip.html" }

/-- A concrete revision dated April 2022, earlier than revLateW. -/
def revEarlyW : ModRevision :=
  { name := "1 Apr, 2022 at 12:00"
    date := { year := 2022, month := 4, day := 1, hour := 12, minute := 0 }
    download_url := "https://modsbase.com/bbbb/Mod_v1.zip.html" }

/-! ## Timestamp parsing (smodslib/utils.py and its call sites in smods.py) -/

/-- parse_time (utils.py lines 9-22): try each template in order with strptime
(passed in as a parameter, since it is the Python standard-library routine);
return the first successful parse together with the matched template, or a
ValueError message when no template matches. -/
def parse_time (strptime : String → String → Option PyDateTime) (text : String) :
    List String → Except String (PyDateTime × String)
  | [] => .error (text ++ " doesnt match with no one of the templates")
  | template :: rest =>
    match strptime text template with
    | some d => .ok (d, template)
    | none => parse_time strptime text rest

/-- Scan a character list for an occurrence of the year directive, mirroring
the Python substring test checking whether a template contains a percent sign
followed by the letter Y. -/
def listContainsYearTok : List Char → Bool
  | '%' :: 'Y' :: _ => true
  | _ :: rest => listContainsYearTok rest
  | [] => false

/-- Whether a strptime template string contains the year field. -/
def containsYearField (template : String) : Bool :=
  listContainsYearTok template.data

/-- The two revision-date templates (smods.py lines 77, 348 and 361). -/
def REVISION_TEMPLATES : List String := ["%d %b, %Y at %H:%M", "%d %b at %H:%M"]

/-- The shared revision-date call-site pattern (smods.py lines 77-79, 348-350
and 361-363): parse with the two revision templates, then back-fill the
current calendar year exactly when the matched template has no year field. -/
def parseRevisionDate (strptime : String → String → Option PyDateTime)
    (currentYear : Nat) (text : String) : Except String (PyDateTime × String) :=
  match parse_time strptime text REVISION_TEMPLATES with
  | .error e => .error e
  | .ok (date, matched) =>
    .ok (if containsYearField matched = false then { date with year := currentYear }
      else date, matched)

/-- A concrete strptime model matching only the second revision template on a
fixed text, defaulting the year to 1900 as Python strptime does when the
template has no year field. -/
def strptimeW : String → String → Option PyDateTime :=
  fun text template =>
    if text = "1 Jan at 10:00" ∧ template = "%d %b at %H:%M" then
      some { year := 1900, month := 1, day := 1, hour := 10, minute := 0 }
    else none

/-! ## Concrete instances used to evaluate the resolver theorems -/

/-- A concrete root mod used in closed evaluations. -/
def modAW : ModBase :=
  { name := "Root A", id := "101", steam_id := "9001", has_dependencies := true }

/-- A second concrete root mod used in closed evaluations. -/
def modBW : ModBase :=
  { name := "Root B", id := "102", steam_id := "9002", has_dependencies := true }

/-- A concrete common dependency used in closed evaluations. -/
def modMW : ModBase :=
  { name := "Common dep M", id := "200", steam_id := "9100", has_dependencies := false }

/-- A concrete steam-id lookup: only the common dependency resolves. -/
def lookupW : String → Option ModBase :=
  fun s => if s = "9100" then some modMW else none

/-- A concrete site where both roots require the common dependency and root A
additionally references a steam id that fails lookup. -/
def siteW : String → ModPage :=
  fun i =>
    if i = "101" then { root := modAW, requiredItems := some ["9100", "9999"] }
    else { root := modBW, requiredItems := some ["9100"] }

/-- A concrete steam-id lookup for the cyclic instance: both roots resolve. -/
def lookupCycW : String → Option ModBase :=
  fun s => if s = "9001" then some modAW else if s = "9002" then some modBW else none

/-- A concrete site whose requirement references form a two-cycle: the page of
mod 101 requires mod 102 and the page of mod 102 requires mod 101. -/
def siteCycW : String → ModPage :=
  fun i =>
    if i = "101" then { root := modAW, requiredItems := some ["9002"] }
    else { root := modBW, requiredItems := some ["9001"] }

/-! ## Helper lemmas about the resolver primitives -/

theorem isModInListIds_neg_iff (mid : String) (l : List String) :
    isModInListIds mid l < 0 ↔ mid ∉ l := by
  induction l with
  | nil => simp [isModInListIds]
  | cons x rest ih =>
    simp only [isModInListIds, List.mem_cons]
    by_cases hx : x = mid
    · simp [hx]
    · simp only [hx, if_false]
      by_cases hr : isModInListIds mid rest < 0
      · have hnotm : mid ∉ rest := ih.mp hr
        simp only [hr, if_true]
        constructor
        · intro _ h
          rcases h with h | h
          · exact hx h.symm
          · exact hnotm h
        · intro _
          omega
      · have hmem : mid ∈ rest := by
          by_contra hmm
          exact hr (ih.mpr hmm)
        simp only [hr, if_false]
        constructor
        · intro h
          exfalso
          omega
        · intro h
          exact absurd (Or.inr hmem) h

theorem isModInListBase_neg_iff (root : ModBase) (l : List ModBase) :
    isModInListBase root l < 0 ↔ root.id ∉ l.map (fun m => m.id) := by
  exact isModInListIds_neg_iff root.id (l.map (fun m => m.id))

theorem processRequirement_eq_insertDependency (root mod : ModBase)
    (l : List ModDependency) :
    processRequirement root l mod = insertDependency root mod l := by
  induction l with
  | nil =>
    simp [processRequirement, insertDependency, isModInListDep, isModInListIds]
  | cons entry rest ih =>
    by_cases hid : entry.base.id = mod.id
    · simp only [processRequirement, insertDependency, isModInListDep, isModInListIds, hid]
      norm_num
      split <;> rfl
    · by_cases hr : isModInListIds mod.id (rest.map (fun item => item.base.id)) < 0
      · have hneg : isModInListDep mod (entry :: rest) = -1 := by
          simp [isModInListDep, isModInListIds, hid, hr]
        have hrest : processRequirement root rest mod
            = rest ++ [{ base := mod, required_by := [root] }] := by
          simp [processRequirement, isModInListDep, hr]
        simp only [processRequirement, hneg] at *
        simp only [insertDependency, hid, if_false, ← ih, hrest]
        simp
      · obtain ⟨n, hn⟩ : ∃ n : Nat, isModInListIds mod.id
            (rest.map (fun item => item.base.id)) = (n : Int) := by
          refine ⟨(isModInListIds mod.id (rest.map (fun item => item.base.id))).toNat, ?_⟩
          omega
        have hidx : isModInListDep mod (entry :: rest) = (n : Int) + 1 := by
          simp [isModInListDep, isModInListIds, hid, hr, hn]
        have hrec : isModInListDep mod rest = (n : Int) := by
          simpa [isModInListDep] using hn
        simp only [insertDependency, hid, if_false, ← ih]
        simp only [processRequirement, hidx, hrec]
        have h1 : ((n : Int) + 1) ≥ 0 := by omega
        have h2 : ((n : Int)) ≥ 0 := by omega
        have ht1 : ((n : Int) + 1).toNat = n + 1 := by omega
        have ht2 : ((n : Int)).toNat = n := by omega
        simp only [h1, h2, if_true, ht1, ht2]
        cases hget : rest[n]? with
        | none => simp [hget]
        | some e =>
          by_cases hin : isModInListBase root e.required_by < 0
          · simp [hget, hin, List.set]
          · simp [hget, hin]

theorem depIds_insertDependency (root mod : ModBase) (l : List ModDependency) :
    depIds (insertDependency root mod l) =
      if mod.id ∈ depIds l then depIds l else depIds l ++ [mod.id] := by
  induction l with
  | nil => simp [insertDependency, depIds]
  | cons entry rest ih =>
    by_cases hid : entry.base.id = mod.id
    · have h1 : depIds (insertDependency root mod (entry :: rest))
          = entry.base.id :: depIds rest := by
        simp only [insertDependency]
        rw [if_pos hid]
        split <;> simp [depIds]
      have h2 : mod.id ∈ depIds (entry :: rest) := by
        simp only [depIds, List.map_cons, List.mem_cons]
        exact Or.inl hid.symm
      rw [h1, if_pos h2]
      simp [depIds]
    · have h1 : depIds (insertDependency root mod (entry :: rest))
          = entry.base.id :: depIds (insertDependency root mod rest) := by
        simp [insertDependency, hid, depIds]
      have h2 : (mod.id ∈ depIds (entry :: rest)) ↔ (mod.id ∈ depIds rest) := by
        simp only [depIds, List.map_cons, List.mem_cons]
        constructor
        · intro h
          rcases h with h | h
          · exact absurd h.symm hid
          · exact h
        · exact Or.inr
      rw [h1, ih]
      by_cases hm : mod.id ∈ depIds rest
      · rw [if_pos hm, if_pos (h2.mpr hm)]
        simp [depIds]
      · rw [if_neg hm, if_neg (fun h => hm (h2.mp h))]
        simp [depIds]

theorem nodup_depIds_insertDependency (root mod : ModBase) (l : List ModDependency)
    (h : (depIds l).Nodup) : (depIds (insertDependency root mod l)).Nodup := by
  rw [depIds_insertDependency]
  by_cases hm : mod.id ∈ depIds l
  · rwa [if_pos hm]
  · rw [if_neg hm]
    rw [List.nodup_append]
    refine ⟨h, List.nodup_singleton _, ?_⟩
    intro x hx hx1
    simp only [List.mem_singleton] at hx1
    exact hm (hx1 ▸ hx)

theorem mem_depIds_insertDependency_of_mem (root mod : ModBase) (l : List ModDependency)
    (x : String) (h : x ∈ depIds l) : x ∈ depIds (insertDependency root mod l) := by
  rw [depIds_insertDependency]
  by_cases hm : mod.id ∈ depIds l
  · rwa [if_pos hm]
  · rw [if_neg hm]
    exact List.mem_append_left _ h

theorem mem_depIds_insertDependency_self (root mod : ModBase) (l : List ModDependency) :
    mod.id ∈ depIds (insertDependency root mod l) := by
  rw [depIds_insertDependency]
  by_cases hm : mod.id ∈ depIds l
  · rwa [if_pos hm]
  · rw [if_neg hm]
    exact List.mem_append_right _ (List.mem_singleton_self _)

theorem reqIds_nodup_insertDependency (root mod : ModBase) (l : List ModDependency)
    (h : ∀ d ∈ l, (reqIds d).Nodup) :
    ∀ d ∈ insertDependency root mod l, (reqIds d).Nodup := by
  induction l with
  | nil =>
    intro d hd
    simp only [insertDependency, List.mem_singleton] at hd
    subst hd
    simp [reqIds]
  | cons entry rest ih =>
    intro d hd
    by_cases hid : entry.base.id = mod.id
    · simp only [insertDependency, hid, if_true, List.mem_cons] at hd
      rcases hd with hd | hd
      · subst hd
        by_cases hin : isModInListBase root entry.required_by < 0
        · rw [if_pos hin]
          have hroot : root.id ∉ reqIds entry := by
            have := (isModInListBase_neg_iff root entry.required_by).mp hin
            simpa [reqIds] using this
          have hnd : (reqIds entry).Nodup := h entry (List.mem_cons_self _ _)
          have : reqIds { entry with required_by := entry.required_by ++ [root] }
              = reqIds entry ++ [root.id] := by simp [reqIds]
          rw [this, List.nodup_append]
          refine ⟨hnd, List.nodup_singleton _, ?_⟩
          intro x hx hx1
          simp only [List.mem_singleton] at hx1
          exact hroot (hx1 ▸ hx)
        · rw [if_neg hin]
          exact h entry (List.mem_cons_self _ _)
      · exact h d (List.mem_cons_of_mem _ hd)
    · simp only [insertDependency, hid, if_false, List.mem_cons] at hd
      rcases hd with hd | hd
      · subst hd
        exact h d (List.mem_cons_self _ _)
      · exact ih (fun e he => h e (List.mem_cons_of_mem _ he)) d hd

theorem insertDependency_root_mem (root mod : ModBase) (l : List ModDependency)
    (hnd : (depIds l).Nodup) :
    ∀ d ∈ insertDependency root mod l, d.base.id = mod.id → root.id ∈ reqIds d := by
  induction l with
  | nil =>
    intro d hd _
    simp only [insertDependency, List.mem_singleton] at hd
    subst hd
    simp [reqIds]
  | cons entry rest ih =>
    intro d hd hdid
    by_cases hid : entry.base.id = mod.id
    · rw [insertDependency, if_pos hid] at hd
      rcases List.mem_cons.mp hd with hd | hd
      · subst hd
        by_cases hin : isModInListBase root entry.required_by < 0
        · rw [if_pos hin]
          have : reqIds { entry with required_by := entry.required_by ++ [root] }
              = reqIds entry ++ [root.id] := by simp [reqIds]
          rw [this]
          exact List.mem_append_right _ (List.mem_singleton_self _)
        · rw [if_neg hin]
          have hmem : root.id ∈ entry.required_by.map (fun m => m.id) := by
            by_contra hc
            exact hin ((isModInListBase_neg_iff root entry.required_by).mpr hc)
          simpa [reqIds] using hmem
      · exfalso
        have hmem : d.base.id ∈ depIds rest := List.mem_map_of_mem _ hd
        have hhead : entry.base.id ∉ depIds rest := by
          have := hnd
          simp only [depIds, List.map_cons, List.nodup_cons] at this
          exact this.1
        rw [hdid, ← hid] at hmem
        exact hhead hmem
    · rw [insertDependency, if_neg hid] at hd
      rcases List.mem_cons.mp hd with hd | hd
      · subst hd
        exact absurd hdid hid
      · have hnd2 : (depIds rest).Nodup := by
          simp only [depIds, List.map_cons, List.nodup_cons] at hnd
          exact hnd.2
        exact ih hnd2 d hd hdid

theorem mem_insertDependency_growth (root mod : ModBase) (l : List ModDependency) :
    ∀ d ∈ insertDependency root mod l,
      (∃ e ∈ l, d.base = e.base ∧ ∀ z ∈ reqIds e, z ∈ reqIds d) ∨
        (d = { base := mod, required_by := [root] } ∧ mod.id ∉ depIds l) := by
  induction l with
  | nil =>
    intro d hd
    simp only [insertDependency, List.mem_singleton] at hd
    exact Or.inr ⟨hd, by simp [depIds]⟩
  | cons entry rest ih =>
    intro d hd
    by_cases hid : entry.base.id = mod.id
    · rw [insertDependency, if_pos hid] at hd
      rcases List.mem_cons.mp hd with hd | hd
      · subst hd
        refine Or.inl ⟨entry, List.mem_cons_self _ _, ?_⟩
        by_cases hin : isModInListBase root entry.required_by < 0
        · rw [if_pos hin]
          refine ⟨rfl, fun z hz => ?_⟩
          have : reqIds { entry with required_by := entry.required_by ++ [root] }
              = reqIds entry ++ [root.id] := by simp [reqIds]
          rw [this]
          exact List.mem_append_left _ hz
        · rw [if_neg hin]
          exact ⟨rfl, fun z hz => hz⟩
      · exact Or.inl ⟨d, List.mem_cons_of_mem _ hd, rfl, fun z hz => hz⟩
    · rw [insertDependency, if_neg hid] at hd
      rcases List.mem_cons.mp hd with hd | hd
      · subst hd
        exact Or.inl ⟨d, List.mem_cons_self _ _, rfl, fun z hz => hz⟩
      · rcases ih d hd with ⟨e, he, hbase, hsub⟩ | ⟨heq, hnot⟩
        · exact Or.inl ⟨e, List.mem_cons_of_mem _ he, hbase, hsub⟩
        · refine Or.inr ⟨heq, ?_⟩
          simp only [depIds, List.map_cons, List.mem_cons]
          rintro (h | h)
          · exact hid h.symm
          · exact hnot h

theorem insertDependency_inv (root mod : ModBase) (l : List ModDependency)
    (X y : String) (hX : X ∈ depIds l)
    (hInv : ∀ d ∈ l, d.base.id = X → y ∈ reqIds d) :
    ∀ d ∈ insertDependency root mod l, d.base.id = X → y ∈ reqIds d := by
  intro d hd hdX
  rcases mem_insertDependency_growth root mod l d hd with ⟨e, he, hbase, hsub⟩ | ⟨heq, hnot⟩
  · exact hsub y (hInv e he (by rw [← hbase]; exact hdX))
  · exfalso
    have : X = mod.id := by rw [← hdX, heq]
    exact hnot (this ▸ hX)

theorem foldl_process_eq_foldl_insert (root : ModBase) (reqs : List ModBase)
    (acc : List ModDependency) :
    reqs.foldl (fun a m => processRequirement root a m) acc =
      reqs.foldl (fun a m => insertDependency root m a) acc := by
  induction reqs generalizing acc with
  | nil => rfl
  | cons m rest ih =>
    simp only [List.foldl_cons]
    rw [processRequirement_eq_insertDependency]
    exact ih _

theorem cmdt_eq_foldl_insert (lookup : String → Option ModBase) (page : ModPage)
    (acc : List ModDependency) :
    create_mod_dependencies_tree lookup page acc =
      (scrapeRequirements lookup page.requiredItems).foldl
        (fun a m => insertDependency page.root m a) acc := by
  rw [create_mod_dependencies_tree, foldl_process_eq_foldl_insert]

theorem foldl_insert_nodup (root : ModBase) (reqs : List ModBase)
    (acc : List ModDependency) (h : (depIds acc).Nodup) :
    (depIds (reqs.foldl (fun a m => insertDependency root m a) acc)).Nodup := by
  induction reqs generalizing acc with
  | nil => exact h
  | cons m rest ih =>
    simp only [List.foldl_cons]
    exact ih _ (nodup_depIds_insertDependency root m acc h)

theorem foldl_insert_reqIds_nodup (root : ModBase) (reqs : List ModBase)
    (acc : List ModDependency) (h : ∀ d ∈ acc, (reqIds d).Nodup) :
    ∀ d ∈ reqs.foldl (fun a m => insertDependency root m a) acc, (reqIds d).Nodup := by
  induction reqs generalizing acc with
  | nil => exact h
  | cons m rest ih =>
    simp only [List.foldl_cons]
    exact ih _ (reqIds_nodup_insertDependency root m acc h)

theorem foldl_insert_mem_mono (root : ModBase) (reqs : List ModBase)
    (acc : List ModDependency) (x : String) (h : x ∈ depIds acc) :
    x ∈ depIds (reqs.foldl (fun a m => insertDependency root m a) acc) := by
  induction reqs generalizing acc with
  | nil => exact h
  | cons m rest ih =>
    simp only [List.foldl_cons]
    exact ih _ (mem_depIds_insertDependency_of_mem root m acc x h)

theorem foldl_insert_inv (root : ModBase) (reqs : List ModBase)
    (acc : List ModDependency) (X y : String) (hX : X ∈ depIds acc)
    (hInv : ∀ d ∈ acc, d.base.id = X → y ∈ reqIds d) :
    ∀ d ∈ reqs.foldl (fun a m => insertDependency root m a) acc,
      d.base.id = X → y ∈ reqIds d := by
  induction reqs generalizing acc with
  | nil => exact hInv
  | cons m rest ih =>
    simp only [List.foldl_cons]
    exact ih _ (mem_depIds_insertDependency_of_mem root m acc X hX)
      (insertDependency_inv root m acc X y hX hInv)

theorem foldl_insert_creates (root : ModBase) (reqs : List ModBase)
    (acc : List ModDependency) (X : String) (h : ∃ m ∈ reqs, m.id = X) :
    X ∈ depIds (reqs.foldl (fun a m => insertDependency root m a) acc) := by
  induction reqs generalizing acc with
  | nil => exact absurd h (by simp)
  | cons m rest ih =>
    simp only [List.foldl_cons]
    rcases h with ⟨m0, hm0, hm0X⟩
    rcases List.mem_cons.mp hm0 with hm0 | hm0
    · subst hm0
      exact foldl_insert_mem_mono root rest _ X
        (hm0X ▸ mem_depIds_insertDependency_self root m0 acc)
    · exact ih _ ⟨m0, hm0, hm0X⟩

theorem foldl_insert_root_recorded (root : ModBase) (reqs : List ModBase)
    (acc : List ModDependency) (X : String) (hnd : (depIds acc).Nodup)
    (h : ∃ m ∈ reqs, m.id = X) :
    ∀ d ∈ reqs.foldl (fun a m => insertDependency root m a) acc,
      d.base.id = X → root.id ∈ reqIds d := by
  induction reqs generalizing acc with
  | nil => exact absurd h (by simp)
  | cons m rest ih =>
    simp only [List.foldl_cons]
    rcases h with ⟨m0, hm0, hm0X⟩
    rcases List.mem_cons.mp hm0 with hm0 | hm0
    · subst hm0
      refine foldl_insert_inv root rest _ X root.id
        (hm0X ▸ mem_depIds_insertDependency_self root m0 acc) ?_
      intro d hd hdX
      exact insertDependency_root_mem root m0 acc hnd d hd (hdX.trans hm0X.symm)
    · exact ih _ (nodup_depIds_insertDependency root m acc hnd) ⟨m0, hm0, hm0X⟩

theorem gdtree_aux (site : String → ModPage) (lookup : String → Option ModBase)
    (M : ModBase) (mods_ids : List String) (acc : List ModDependency)
    (hnd : (depIds acc).Nodup) (hrq : ∀ d ∈ acc, (reqIds d).Nodup)
    (hreq : ∀ i ∈ mods_ids, M ∈ scrapeRequirements lookup (site i).requiredItems) :
    (depIds (mods_ids.foldl
        (fun a j => create_mod_dependencies_tree lookup (site j) a) acc)).Nodup ∧
    (∀ d ∈ mods_ids.foldl (fun a j => create_mod_dependencies_tree lookup (site j) a) acc,
      (reqIds d).Nodup) ∧
    (∀ x ∈ depIds acc, x ∈ depIds (mods_ids.foldl
        (fun a j => create_mod_dependencies_tree lookup (site j) a) acc)) ∧
    (mods_ids ≠ [] → M.id ∈ depIds (mods_ids.foldl
        (fun a j => create_mod_dependencies_tree lookup (site j) a) acc)) ∧
    (∀ i ∈ mods_ids,
      ∀ d ∈ mods_ids.foldl (fun a j => create_mod_dependencies_tree lookup (site j) a) acc,
        d.base.id = M.id → (site i).root.id ∈ reqIds d) ∧
    (∀ X y, X ∈ depIds acc → (∀ d ∈ acc, d.base.id = X → y ∈ reqIds d) →
      ∀ d ∈ mods_ids.foldl (fun a j => create_mod_dependencies_tree lookup (site j) a) acc,
        d.base.id = X → y ∈ reqIds d) := by
  induction mods_ids generalizing acc with
  | nil =>
    exact ⟨hnd, hrq, fun x hx => hx, fun h => absurd rfl h, by simp,
      fun X y _ hInv => hInv⟩
  | cons i rest ih =>
    have hreqi : M ∈ scrapeRequirements lookup (site i).requiredItems :=
      hreq i (List.mem_cons_self _ _)
    have hreqrest : ∀ j ∈ rest, M ∈ scrapeRequirements lookup (site j).requiredItems :=
      fun j hj => hreq j (List.mem_cons_of_mem _ hj)
    simp only [List.foldl_cons]
    have e1 : create_mod_dependencies_tree lookup (site i) acc =
        (scrapeRequirements lookup (site i).requiredItems).foldl
          (fun a m => insertDependency (site i).root m a) acc :=
      cmdt_eq_foldl_insert lookup (site i) acc
    have hnd1 : (depIds (create_mod_dependencies_tree lookup (site i) acc)).Nodup := by
      rw [e1]
      exact foldl_insert_nodup _ _ _ hnd
    have hrq1 : ∀ d ∈ create_mod_dependencies_tree lookup (site i) acc,
        (reqIds d).Nodup := by
      rw [e1]
      exact foldl_insert_reqIds_nodup _ _ _ hrq
    have hmono1 : ∀ x ∈ depIds acc,
        x ∈ depIds (create_mod_dependencies_tree lookup (site i) acc) := by
      intro x hx
      rw [e1]
      exact foldl_insert_mem_mono _ _ _ x hx
    have hM1 : M.id ∈ depIds (create_mod_dependencies_tree lookup (site i) acc) := by
      rw [e1]
      exact foldl_insert_creates _ _ _ M.id ⟨M, hreqi, rfl⟩
    have hroot1 : ∀ d ∈ create_mod_dependencies_tree lookup (site i) acc,
        d.base.id = M.id → (site i).root.id ∈ reqIds d := by
      rw [e1]
      exact foldl_insert_root_recorded _ _ _ M.id hnd ⟨M, hreqi, rfl⟩
    have hinv1 : ∀ X y, X ∈ depIds acc → (∀ d ∈ acc, d.base.id = X → y ∈ reqIds d) →
        ∀ d ∈ create_mod_dependencies_tree lookup (site i) acc,
          d.base.id = X → y ∈ reqIds d := by
      intro X y hX hInv
      rw [e1]
      exact foldl_insert_inv _ _ _ X y hX hInv
    obtain ⟨R1, R2, R3, R4, R5, R6⟩ := ih _ hnd1 hrq1 hreqrest
    refine ⟨R1, R2, fun x hx => R3 x (hmono1 x hx), fun _ => R3 M.id hM1, ?_, ?_⟩
    · intro j hj d hd hdM
      rcases List.mem_cons.mp hj with hj | hj
      · subst hj
        exact R6 M.id (site j).root.id hM1 hroot1 d hd hdM
      · exact R5 j hj d hd hdM
    · intro X y hX hInv
      exact R6 X y (hmono1 X hX) (hinv1 X y hX hInv)

theorem countP_eq_one_of_nodup_map {α : Type} (f : α → String) (l : List α) (X : String)
    (hnd : (l.map f).Nodup) (hmem : X ∈ l.map f) :
    l.countP (fun a => f a == X) = 1 := by
  induction l with
  | nil => simp at hmem
  | cons a rest ih =>
    simp only [List.map_cons, List.nodup_cons] at hnd
    simp only [List.map_cons, List.mem_cons] at hmem
    by_cases hfa : f a = X
    · have hnotin : X ∉ rest.map f := hfa ▸ hnd.1
      have hzero : rest.countP (fun b => f b == X) = 0 := by
        rw [List.countP_eq_zero]
        intro b hb
        simp only [beq_iff_eq]
        intro hfb
        exact hnotin (hfb ▸ List.mem_map_of_mem f hb)
      simp [List.countP_cons, hfa, hzero]
    · rcases hmem with h | h
      · exact absurd h.symm hfa
      · have := ih hnd.2 h
        simp [List.countP_cons, hfa, this]

/-! ## Claim C1 -/

/-- C1: for every set of root mods that all require a common mod M, resolving
each root in turn against one shared accumulator (generate_dependency_tree,
that is repeated create_mod_dependencies_tree calls) produces exactly one
ModDependency entry whose id equals the id of M, and that entry's required_by
list contains each root exactly once (compared by id), whatever the order of
mods_ids. -/
theorem c1_dedup (site : String → ModPage) (lookup : String → Option ModBase)
    (M : ModBase) (mods_ids : List String) (hne : mods_ids ≠ [])
    (hreq : ∀ i ∈ mods_ids, M ∈ scrapeRequirements lookup (site i).requiredItems) :
    ((generate_dependency_tree site lookup mods_ids).countP
        (fun d => d.base.id == M.id) = 1) ∧
      ∀ i ∈ mods_ids, ∀ d ∈ generate_dependency_tree site lookup mods_ids,
        d.base.id = M.id →
          d.required_by.countP (fun m => m.id == (site i).root.id) = 1 := by
  obtain ⟨R1, R2, _, R4, R5, _⟩ :=
    gdtree_aux site lookup M mods_ids [] (by simp [depIds]) (by simp) hreq
  constructor
  · have h1 := R1
    have h2 := R4 hne
    simp only [depIds] at h1 h2
    exact countP_eq_one_of_nodup_map (fun d : ModDependency => d.base.id) _ M.id h1 h2
  · intro i hi d hd hdM
    have h1 := R2 d hd
    have h2 := R5 i hi d hd hdM
    simp only [reqIds] at h1 h2
    exact countP_eq_one_of_nodup_map (fun m : ModBase => m.id) _ _ h1 h2

/-- Closed evaluation of c1_dedup: two roots sharing the common dependency. -/
theorem c1_dedup_witness :
    ((generate_dependency_tree siteW lookupW ["101", "102"]).countP
        (fun d => d.base.id == modMW.id) = 1) ∧
      ∀ i ∈ ["101", "102"], ∀ d ∈ generate_dependency_tree siteW lookupW ["101", "102"],
        d.base.id = modMW.id →
          d.required_by.countP (fun m => m.id == (siteW i).root.id) = 1 :=
  c1_dedup siteW lookupW modMW ["101", "102"] (by decide) (by decide)

/-! ## Claim C5 -/

/-- C5: create_mod_dependencies_tree returns the accumulator unchanged both
when the page has no Required-items section and when every requirement
reference fails the external-id lookup (the NoResultError is swallowed and the
requirement dropped); the quantification over pages in particular covers pages
whose root has has_dependencies set to true. -/
theorem c5_frame (lookup : String → Option ModBase) (page : ModPage)
    (dependencies_list : List ModDependency)
    (h : page.requiredItems = none ∨
      ∃ sids, page.requiredItems = some sids ∧ ∀ sid ∈ sids, lookup sid = none) :
    create_mod_dependencies_tree lookup page dependencies_list = dependencies_list := by
  have hscrape : scrapeRequirements lookup page.requiredItems = [] := by
    rcases h with h | ⟨sids, hs, hall⟩
    · rw [h]
      rfl
    · rw [hs]
      simp only [scrapeRequirements]
      rw [List.filterMap_eq_nil_iff]
      exact hall
  rw [create_mod_dependencies_tree, hscrape]
  rfl

/-- Closed evaluation of c5_frame: a root with has_dependencies true whose only
references fail lookup, and a root with no Required-items section; in both
cases a nonempty accumulator comes back unchanged. -/
theorem c5_frame_witness :
    create_mod_dependencies_tree (fun _ => none)
        { root := modAW, requiredItems := some ["9100", "9999"] }
        [{ base := modMW, required_by := [modBW] }]
      = [{ base := modMW, required_by := [modBW] }] ∧
    create_mod_dependencies_tree lookupW { root := modAW, requiredItems := none }
        [{ base := modMW, required_by := [modBW] }]
      = [{ base := modMW, required_by := [modBW] }] :=
  ⟨c5_frame _ _ _ (Or.inr ⟨["9100", "9999"], rfl, by simp⟩),
    c5_frame _ _ _ (Or.inl rfl)⟩

/-! ## Claim C2 -/

theorem cmdtRecAux_none (recurse : String → List ModDependency → Option (List ModDependency))
    (root : ModBase) (b : String) (hfail : ∀ acc, recurse b acc = none) :
    ∀ reqs : List ModBase, (∃ m ∈ reqs, m.id = b) →
      ∀ acc, cmdtRecAux recurse root reqs acc = none := by
  intro reqs
  induction reqs with
  | nil =>
    intro h
    exact absurd h (by simp)
  | cons m rest ih =>
    intro hmem acc
    rcases hmem with ⟨m0, hm0, hid⟩
    rcases List.mem_cons.mp hm0 with hm0 | hm0
    · subst hm0
      simp only [cmdtRecAux, hid, hfail]
    · simp only [cmdtRecAux]
      cases h : recurse m.id (processRequirement root acc m) with
      | none => rfl
      | some acc2 => exact ih ⟨m0, hm0, hid⟩ acc2

/-- C2: with the recursive flag set, on a site whose requirement references
form a cycle (the page of mod a requires a mod with id b and the page of mod b
requires a mod with id a), create_mod_dependencies_tree does not terminate:
for every recursion-depth bound fuel, the fuel-instrumented model cmdtRec runs
out of fuel (returns none), because there is no guard keyed by mod id before
the recursive call. -/
theorem c2_cycle (site : String → ModPage) (lookup : String → Option ModBase)
    (a b : String)
    (ha : ∃ m ∈ scrapeRequirements lookup (site a).requiredItems, m.id = b)
    (hb : ∃ m ∈ scrapeRequirements lookup (site b).requiredItems, m.id = a) :
    ∀ fuel acc, cmdtRec site lookup fuel a acc = none := by
  have key : ∀ fuel, (∀ acc, cmdtRec site lookup fuel a acc = none) ∧
      (∀ acc, cmdtRec site lookup fuel b acc = none) := by
    intro fuel
    induction fuel with
    | zero => exact ⟨fun _ => rfl, fun _ => rfl⟩
    | succ n ih =>
      constructor
      · intro acc
        simp only [cmdtRec]
        exact cmdtRecAux_none _ _ b ih.2 _ ha acc
      · intro acc
        simp only [cmdtRec]
        exact cmdtRecAux_none _ _ a ih.1 _ hb acc
  exact fun fuel acc => (key fuel).1 acc

/-- Closed evaluation of c2_cycle on the concrete two-cycle site: a depth
bound of seven does not suffice, starting from the empty accumulator. -/
theorem c2_cycle_witness :
    cmdtRec siteCycW lookupCycW 7 "101" [] = none :=
  c2_cycle siteCycW lookupCycW "101" "102" (by decide) (by decide) 7 []

/-! ## Claim C4 -/

/-- C4: parse_time returns the parse result of the first template that matches
together with that template, and fails with a ValueError when no template
matches; at the shared revision-date call sites the current calendar year is
back-filled into the parsed date exactly when the matched template contains no
year field (the first revision template has a year field, the second has
none). -/
theorem c4_parse_time :
    (∀ (strptime : String → String → Option PyDateTime) (text : String)
        (pre : List String) (t : String) (post : List String) (d : PyDateTime),
      (∀ u ∈ pre, strptime text u = none) → strptime text t = some d →
        parse_time strptime text (pre ++ t :: post) = .ok (d, t)) ∧
    (∀ (strptime : String → String → Option PyDateTime) (text : String)
        (templates : List String),
      (∀ u ∈ templates, strptime text u = none) →
        ∃ e, parse_time strptime text templates = .error e) ∧
    (∀ (strptime : String → String → Option PyDateTime) (currentYear : Nat)
        (text : String) (d : PyDateTime) (t : String),
      parse_time strptime text REVISION_TEMPLATES = .ok (d, t) →
        parseRevisionDate strptime currentYear text =
          .ok ((if containsYearField t = false then { d with year := currentYear }
            else d), t)) ∧
    containsYearField "%d %b, %Y at %H:%M" = true ∧
    containsYearField "%d %b at %H:%M" = false := by
  refine ⟨?_, ?_, ?_, by decide, by decide⟩
  · intro strptime text pre t post d hpre ht
    induction pre with
    | nil => simp [parse_time, ht]
    | cons u rest ih =>
      have hu : strptime text u = none := hpre u (List.mem_cons_self _ _)
      simp only [List.cons_append, parse_time, hu]
      exact ih (fun v hv => hpre v (List.mem_cons_of_mem _ hv))
  · intro strptime text templates hall
    induction templates with
    | nil => exact ⟨_, rfl⟩
    | cons u rest ih =>
      have hu : strptime text u = none := hall u (List.mem_cons_self _ _)
      simp only [parse_time, hu]
      exact ih (fun v hv => hall v (List.mem_cons_of_mem _ hv))
  · intro strptime currentYear text d t h
    simp only [parseRevisionDate, h]

/-- Closed evaluation of c4_parse_time: the fixed text matches only the second
revision template, the parse never raises, and the current year 2024 is
back-filled because that template has no year field. -/
theorem c4_parse_time_witness :
    parse_time strptimeW "1 Jan at 10:00"
        (["%d %b, %Y at %H:%M"] ++ "%d %b at %H:%M" :: []) =
      .ok ({ year := 1900, month := 1, day := 1, hour := 10, minute := 0 },
        "%d %b at %H:%M") ∧
    (∃ e, parse_time strptimeW "garbage" REVISION_TEMPLATES = .error e) ∧
    parseRevisionDate strptimeW 2024 "1 Jan at 10:00" =
      .ok ((if containsYearField "%d %b at %H:%M" = false then
        { ({ year := 1900, month := 1, day := 1, hour := 10, minute := 0 } :
            PyDateTime) with year := 2024 }
      else { year := 1900, month := 1, day := 1, hour := 10, minute := 0 }),
        "%d %b at %H:%M") :=
  ⟨c4_parse_time.1 strptimeW "1 Jan at 10:00" ["%d %b, %Y at %H:%M"]
      "%d %b at %H:%M" [] _ (by decide) (by decide),
    c4_parse_time.2.1 strptimeW "garbage" REVISION_TEMPLATES (by decide),
    c4_parse_time.2.2.1 strptimeW 2024 "1 Jan at 10:00"
      { year := 1900, month := 1, day := 1, hour := 10, minute := 0 }
      "%d %b at %H:%M" (by rfl)⟩

/-! ## Claim C3 -/

/-- C3 (code bug at model.py line 263): assigning a descending two-revision
list through the other_revisions setter stores the list unchanged and still
descending, because the source discards the list returned by sorted; the very
sort the source computes and drops would have been ascending, which shows the
stored-ascending claim matches the intent but not the code. -/
theorem c3_sort_bug :
    set_other_revisions (some [revLateW, revEarlyW]) = some [revLateW, revEarlyW] ∧
    revisionsSortedByDate [revLateW, revEarlyW] = false ∧
    revisionsSortedByDate (sortedByDate [revLateW, revEarlyW]) = true :=
  ⟨rfl, by decide, by decide⟩

/-! ## Claim C7 -/

theorem getLastD_of_ne_nil {α : Type} (l : List α) (a b : α) (h : l ≠ []) :
    l.getLastD a = l.getLastD b := by
  cases l with
  | nil => exact absurd rfl h
  | cons x rest =>
    cases rest with
    | nil => rfl
    | cons y t => simp only [List.getLastD_cons]

theorem splitChar_ne_nil (sep : Char) (l : List Char) : splitChar sep l ≠ [] := by
  cases l with
  | nil => simp [splitChar]
  | cons c rest =>
    simp only [splitChar]
    cases h : splitChar sep rest with
    | nil => simp
    | cons s ss => by_cases hc : c = sep <;> simp [hc]

theorem splitChar_of_not_mem (sep : Char) (l : List Char) (h : sep ∉ l) :
    splitChar sep l = [l] := by
  induction l with
  | nil => rfl
  | cons c rest ih =>
    have hc : c ≠ sep := fun hc => h (hc ▸ List.mem_cons_self _ _)
    have hrest : sep ∉ rest := fun hr => h (List.mem_cons_of_mem _ hr)
    simp only [splitChar, ih hrest]
    rw [if_neg hc]

theorem splitChar_two_of_mem (sep : Char) (l : List Char) (h : sep ∈ l) :
    ∃ s ss, splitChar sep l = s :: ss ∧ ss ≠ [] := by
  induction l with
  | nil => simp at h
  | cons c rest ih =>
    by_cases hmem : sep ∈ rest
    · obtain ⟨s, ss, hs, hss⟩ := ih hmem
      by_cases hc : c = sep
      · exact ⟨[], s :: ss, by simp [splitChar, hs, hc], by simp⟩
      · exact ⟨c :: s, ss, by simp [splitChar, hs, hc], hss⟩
    · have hc : c = sep := by
        rcases List.mem_cons.mp h with h | h
        · exact h.symm
        · exact absurd h hmem
      refine ⟨[], [rest], ?_, by simp⟩
      simp [splitChar, splitChar_of_not_mem sep rest hmem, hc]

theorem takeWhile_append_all (p : Char → Bool) (l₁ l₂ : List Char)
    (h : ∀ x ∈ l₁, p x = true) :
    (l₁ ++ l₂).takeWhile p = l₁ ++ l₂.takeWhile p := by
  induction l₁ with
  | nil => rfl
  | cons c rest ih =>
    have hc := h c (List.mem_cons_self _ _)
    simp only [List.cons_append, List.takeWhile_cons, hc, if_true]
    rw [ih (fun x hx => h x (List.mem_cons_of_mem _ hx))]

theorem takeWhile_append_stop (p : Char → Bool) (l₁ l₂ : List Char)
    (h : ∃ x ∈ l₁, p x = false) :
    (l₁ ++ l₂).takeWhile p = l₁.takeWhile p := by
  induction l₁ with
  | nil =>
    rcases h with ⟨x, hx, _⟩
    simp at hx
  | cons c rest ih =>
    cases hc : p c with
    | false => simp [List.takeWhile_cons, hc]
    | true =>
      have hrest : ∃ x ∈ rest, p x = false := by
        rcases h with ⟨x, hx, hpx⟩
        rcases List.mem_cons.mp hx with hx | hx
        · rw [hx] at hpx
          rw [hc] at hpx
          cases hpx
        · exact ⟨x, hx, hpx⟩
      simp only [List.cons_append, List.takeWhile_cons, hc, if_true]
      rw [ih hrest]

theorem splitChar_getLastD_eq_afterLast (sep : Char) (l : List Char) :
    (splitChar sep l).getLastD [] =
      (l.reverse.takeWhile (fun c => c != sep)).reverse := by
  induction l with
  | nil => rfl
  | cons c rest ih =>
    by_cases hmem : sep ∈ rest
    · have hstop : ∃ x ∈ rest.reverse, (fun c => c != sep) x = false :=
        ⟨sep, by simpa using hmem, by simp⟩
      have hrhs : ((c :: rest).reverse.takeWhile (fun c => c != sep)).reverse
          = (rest.reverse.takeWhile (fun c => c != sep)).reverse := by
        rw [List.reverse_cons, takeWhile_append_stop _ _ _ hstop]
      rw [hrhs, ← ih]
      obtain ⟨s, ss, hs, hss⟩ := splitChar_two_of_mem sep rest hmem
      by_cases hc : c = sep
      · simp [splitChar, hs, hc, List.getLastD_cons]
      · simp only [splitChar, hs]
        rw [if_neg hc]
        rw [List.getLastD_cons, List.getLastD_cons]
        exact getLastD_of_ne_nil ss _ _ hss
    · have hall : ∀ x ∈ rest.reverse, (fun c => c != sep) x = true := by
        intro x hx
        simp only [bne_iff_ne, ne_eq, decide_eq_true_eq]
        intro hxx
        exact hmem (hxx ▸ (List.mem_reverse.mp hx))
      by_cases hc : c = sep
      · have hrhs : ((c :: rest).reverse.takeWhile (fun c => c != sep)).reverse = rest := by
          rw [List.reverse_cons, takeWhile_append_all _ _ _ hall]
          subst hc
          simp [List.takeWhile_cons]
        rw [hrhs]
        simp [splitChar, splitChar_of_not_mem sep rest hmem, hc]
      · have hrhs : ((c :: rest).reverse.takeWhile (fun c => c != sep)).reverse
            = c :: rest := by
          rw [List.reverse_cons, takeWhile_append_all _ _ _ hall]
          have : [c].takeWhile (fun c => c != sep) = [c] := by
            simp [List.takeWhile_cons, hc]
          rw [this]
          simp
        rw [hrhs]
        simp [splitChar, splitChar_of_not_mem sep rest hmem, hc]

/-- C7 counterexample: for a revision whose download URL ends in a dot html
suffix, the derived filename differs from the last path segment, because
model.py line 31 also removes every occurrence of dot html and strips
whitespace. -/
theorem c7_counterexample :
    (ModRevision.mk "rev"
        { year := 2023, month := 1, day := 1, hour := 0, minute := 0 }
        "https://modsbase.com/abcd/Mod_file.html").filename ≠
      lastPathSegment "https://modsbase.com/abcd/Mod_file.html" := by
  decide

/-- C7 amended: the derived filename equals the last path segment of the
download URL (the substring after the final slash) with every occurrence of
dot html removed and surrounding whitespace stripped. -/
theorem c7_filename (r : ModRevision) :
    r.filename =
      String.mk (pyStrip (removeHtmlOccurrences (lastPathSegment r.download_url).data)) := by
  show String.mk (pyStrip (removeHtmlOccurrences
      ((splitChar '/' r.download_url.data).getLastD []))) = _
  rw [splitChar_getLastD_eq_afterLast]
  rfl

/-! ## Claim C6 -/

set_option maxRecDepth 8000

theorem md5Hexdigest_empty :
    md5Hexdigest (utf8Encode "") = "d41d8cd98f00b204e9800998ecf8427e" := by decide

theorem md5Hexdigest_abc :
    md5Hexdigest (utf8Encode "abc") = "900150983cd24fb0d6963f7d28e17f72" := by decide

theorem natLEBytes_length (k n : Nat) : (natLEBytes k n).length = k := by
  induction k generalizing n with
  | zero => rfl
  | succ m ih => simp [natLEBytes, ih]

theorem md5Bytes_length (msg : List Nat) : (md5Bytes msg).length = 16 := by
  simp [md5Bytes, natLEBytes_length, List.length_append]

theorem flatten_map_byteHex_length (l : List Nat) :
    ((l.map byteHex).flatten).length = 2 * l.length := by
  induction l with
  | nil => rfl
  | cons b rest ih =>
    simp only [List.map_cons, List.flatten_cons, List.length_append, ih, byteHex,
      List.length_cons, List.length_nil]
    omega

theorem md5HexChars_length (msg : List Nat) : (md5HexChars msg).length = 32 := by
  rw [md5HexChars, flatten_map_byteHex_length, md5Bytes_length]

/-- C6: the derived ModRevision id is a pure function of the display name:
equal names give equal ids; the id does not depend on the date or the download
URL; it always has exactly ten characters; and it is a head segment of the
hexadecimal MD5 digest of the UTF-8 encoded name.  Purity of Lean functions
gives stability across repeated evaluations and processes. -/
theorem c6_revision_id (r1 r2 : ModRevision) (h : r1.name = r2.name) :
    r1.id = r2.id ∧
    (∀ d u d2 u2, (ModRevision.mk r1.name d u).id = (ModRevision.mk r2.name d2 u2).id) ∧
    r1.id.length = 10 ∧
    (∃ rest, (md5Hexdigest (utf8Encode r1.name)).data = r1.id.data ++ rest) := by
  refine ⟨?_, ?_, ?_, ?_⟩
  · show ModRevision.hash r1.name = ModRevision.hash r2.name
    rw [h]
  · intro d u d2 u2
    show ModRevision.hash r1.name = ModRevision.hash r2.name
    rw [h]
  · show ((md5HexChars (utf8Encode r1.name)).take 10).length = 10
    rw [List.length_take, md5HexChars_length]
    rfl
  · exact ⟨(md5HexChars (utf8Encode r1.name)).drop 10,
      (List.take_append_drop 10 _).symm⟩

/-- Closed evaluation of c6_revision_id: two revisions with the same display
name but different dates and download URLs share the derived id, and the id
has ten characters. -/
theorem c6_revision_id_witness :
    (ModRevision.mk "5 May, 2023 at 09:00"
        { year := 2023, month := 5, day := 5, hour := 9, minute := 0 }
        "https://modsbase.com/x/a.zip").id =
      (ModRevision.mk "5 May, 2023 at 09:00"
        { year := 2024, month := 1, day := 1, hour := 0, minute := 0 }
        "https://uploadfiles.eu/y/b.zip").id ∧
    (ModRevision.mk "5 May, 2023 at 09:00"
        { year := 2023, month := 5, day := 5, hour := 9, minute := 0 }
        "https://modsbase.com/x/a.zip").id.length = 10 :=
  ⟨(c6_revision_id _ _ rfl).1, (c6_revision_id _ _ rfl).2.2.1⟩

theorem revision_hash_value :
    ModRevision.hash "5 May, 2023 at 09:00" = "9d4ef0ddfe" := by decide

/-! ## Claim C8 -/

/-- C8: download_revision is idempotent with respect to an existing target
file: after any successful call, a second call with the same URL and target
directory performs no network request, leaves the file system unchanged,
invokes the progress callback exactly once with the existing file size as
both downloaded and total bytes (when a callback is given), invokes no error
callback, and returns the same absolute path the first call returned. -/
theorem c8_idempotent (net : String → NetResponse) (fs : List (String × Nat))
    (abspath : String → String) (pathJoin : String → String → String)
    (download_url download_path : String)
    (progress_callback error_callback : Bool) (p : String)
    (h : (download_revision net fs abspath pathJoin download_url download_path
      progress_callback error_callback).result = some p) :
    ∃ size,
      download_revision net
          (download_revision net fs abspath pathJoin download_url download_path
            progress_callback error_callback).fs
          abspath pathJoin download_url download_path
          progress_callback error_callback =
        { result := some p,
          fs := (download_revision net fs abspath pathJoin download_url download_path
            progress_callback error_callback).fs,
          progressCalls := if progress_callback then [(size, size)] else [],
          errorCalls := [], netRequests := 0 } := by
  cases hl : fs.lookup (pathJoin (abspath download_path)
      (String.mk ((splitChar '/' download_url.data).getLastD []))) with
  | some size =>
    refine ⟨size, ?_⟩
    simp only [download_revision, hl] at h ⊢
    obtain rfl := Option.some.inj h
    rfl
  | none =>
    cases hn : net download_url with
    | httpError status msg =>
      exfalso
      simp only [download_revision, hl, hn] at h
      exact Option.noConfusion h
    | ok contentLength chunks =>
      refine ⟨chunks.sum, ?_⟩
      simp only [download_revision, hl, hn] at h ⊢
      obtain rfl := Option.some.inj h
      simp [List.lookup]

/-- Closed evaluation of c8_idempotent: after a successful streaming download
of a two-chunk file, the second call returns the same absolute path with no
network request and one full-progress report of the written size. -/
theorem c8_idempotent_witness :
    ∃ size,
      download_revision (fun _ => .ok (some 5) [2, 3])
          (download_revision (fun _ => .ok (some 5) [2, 3]) []
            (fun s => s) (fun a b => a ++ "/" ++ b)
            "https://host/x/f.zip" "/tmp" true false).fs
          (fun s => s) (fun a b => a ++ "/" ++ b)
          "https://host/x/f.zip" "/tmp" true false =
        { result := some "/tmp/f.zip",
          fs := (download_revision (fun _ => .ok (some 5) [2, 3]) []
            (fun s => s) (fun a b => a ++ "/" ++ b)
            "https://host/x/f.zip" "/tmp" true false).fs,
          progressCalls := if true then [(size, size)] else [],
          errorCalls := [], netRequests := 0 } :=
  c8_idempotent (fun _ => .ok (some 5) [2, 3]) [] (fun s => s)
    (fun a b => a ++ "/" ++ b) "https://host/x/f.zip" "/tmp" true false
    "/tmp/f.zip" (by decide)

/-! ## Claim C9 -/

/-- C9: when the hostname of the revision download URL is outside the fixed
allow-list of supported hosts, generate_download_url fails with the
UnsupportedHostError before performing any network request: the event list is
empty, so no redirect GET and no unlock POST is attempted, whatever the
network would have answered. -/
theorem c9_unsupported_host (getRedirect : String → Except Nat String)
    (postUnlock : String → List (String × String) → Except Nat String)
    (revision : ModRevision)
    (h : hostSupported (urlHostname revision.download_url) = false) :
    generate_download_url getRedirect postUnlock revision =
      (.error (.unsupportedHost ((match urlHostname revision.download_url with
        | some hn => hn
        | none => "None") ++ " in not a supported hosting services")), []) := by
  simp [generate_download_url, h]

/-- Closed evaluation of c9_unsupported_host: a revision hosted on
example.com fails before any network request even against a network that
would answer every request. -/
theorem c9_unsupported_host_witness :
    generate_download_url (fun _ => .ok "redirected") (fun _ _ => .ok "unlocked")
        (ModRevision.mk "r"
          { year := 2023, month := 1, day := 1, hour := 0, minute := 0 }
          "https://example.com/a/b") =
      (.error (.unsupportedHost "example.com in not a supported hosting services"),
        []) :=
  c9_unsupported_host (fun _ => .ok "redirected") (fun _ _ => .ok "unlocked")
    (ModRevision.mk "r"
      { year := 2023, month := 1, day := 1, hour := 0, minute := 0 }
      "https://example.com/a/b") (by decide)

/-! ## Claim C10 -/

/-- C10: search silently omits every filter whose wire value is the empty
string: requesting the UPLOADED sort or the ALL_TIME period (or both) builds
exactly the request URL of passing no filter at all, and every query
parameter other than the keyword carries a nonempty wire value. -/
theorem c10_empty_filters :
    (∀ (urlencode : List (String × String) → String) (query : String) (page : Nat),
      search_endpoint urlencode query page
          (some { sort := some .UPLOADED, period := none }) =
        search_endpoint urlencode query page none ∧
      search_endpoint urlencode query page
          (some { sort := none, period := some .ALL_TIME }) =
        search_endpoint urlencode query page none ∧
      search_endpoint urlencode query page
          (some { sort := some .UPLOADED, period := some .ALL_TIME }) =
        search_endpoint urlencode query page none) ∧
    (∀ (query : String) (filters : Option CatalogueParameters),
      ∀ kv ∈ searchParameters query filters, kv.1 = "s" ∨ kv.2 ≠ "") := by
  constructor
  · intro urlencode query page
    exact ⟨rfl, rfl, rfl⟩
  · intro query filters kv hkv
    cases filters with
    | none =>
      simp only [searchParameters, List.append_nil, List.mem_singleton] at hkv
      subst hkv
      exact Or.inl rfl
    | some f =>
      simp only [searchParameters, List.singleton_append, List.mem_cons] at hkv
      rcases hkv with hkv | hkv
      · subst hkv
        exact Or.inl rfl
      · have h2 := (List.mem_filter.mp hkv).2
        right
        simpa [bne_iff_ne] using h2

/-- Closed evaluation of c10_empty_filters: with a concrete urlencode, the
UPLOADED sort combined with the ALL_TIME period builds the same URL as no
filters, and a nonempty filter such as the UPDATED sort appears with its
nonempty wire value. -/
theorem c10_empty_filters_witness :
    search_endpoint
        (fun ps => String.intercalate "&" (ps.map (fun kv => kv.1 ++ "=" ++ kv.2)))
        "house" 0 (some { sort := some .UPLOADED, period := some .ALL_TIME }) =
      search_endpoint
        (fun ps => String.intercalate "&" (ps.map (fun kv => kv.1 ++ "=" ++ kv.2)))
        "house" 0 none ∧
    (("sort", "updated").1 = "s" ∨ ("sort", "updated").2 ≠ "") :=
  ⟨(c10_empty_filters.1
      (fun ps => String.intercalate "&" (ps.map (fun kv => kv.1 ++ "=" ++ kv.2)))
      "house" 0).2.2,
    c10_empty_filters.2 "house" (some { sort := some .UPDATED, period := none })
      ("sort", "updated") (by decide)⟩
